import Mathlib

/-!
Verification of the categorical one-hot encoders (`antero/categorical.py`) and
the SOM topology measures (`antero/som/measures.py`) against their
natural-language specification.

Conventions of the shallow embedding:
* numpy 1-D arrays / pandas Series become Lean `List`s; 2-D arrays become
  lists of rows;
* a float NaN entry (pandas null) becomes `Option.none`;
* exceptions raised by accessors become `Except.error`;
* SOM weights are embedded over `ℝ` for the u-matrix (whose output is a real
  distance) and over `ℚ` for the topographic error (whose output only depends
  on comparisons of distances, all rational);
* comparisons of a Euclidean norm against a bound `d` are embedded as the
  equivalent comparisons of the squared norm against `d ^ 2` (plus the sign
  of `d`), which keeps the definitions executable.
-/

set_option maxHeartbeats 1000000
set_option linter.unusedSectionVars false
set_option linter.unusedVariables false

/-! ## Definitions -/

section HelperDefs

variable {α : Type} {β : Type}

/-- Index of the first occurrence of `a` in a list (models the index produced
by numpy value matching and `np.argmax` / `np.argmin` style first-hit
searches).  Returns the length of the list when `a` is absent. -/
def firstIndex [DecidableEq α] (a : α) : List α → ℕ
  | [] => 0
  | b :: l => if b = a then 0 else firstIndex a l + 1

/-- Maximum of a list of naturals (`0` for the empty list, where `np.argmax`
would raise). -/
def listMax : List ℕ → ℕ
  | [] => 0
  | x :: xs => xs.foldl max x

/-- Model of `np.argmax` on a vector: index of the first occurrence of the
maximal value. -/
def argmaxFirst (l : List ℕ) : ℕ := firstIndex (listMax l) l

/-- Minimum of a list of rationals (`0` for the empty list). -/
def listMin : List ℚ → ℚ
  | [] => 0
  | x :: xs => xs.foldl min x

/-- Model of `np.argmin` / the head of `np.argsort` on a vector: index of the
first occurrence of the minimal value. -/
def argminFirst (l : List ℚ) : ℕ := firstIndex (listMin l) l

/-- An all-zero one-hot row (rows created by the `init=0` fill). -/
def zeroRow (n : ℕ) : List ℕ := List.replicate n 0

/-- Row `l` of `np.eye(n)`: one at column `l`, zero elsewhere.  For `l ≥ n`
(numpy would raise an `IndexError`) the model returns an all-zero row; no
theorem below depends on that out-of-contract case. -/
def eyeRow (n l : ℕ) : List ℕ := (List.range n).map fun j => if j = l then 1 else 0

/-- Model of `np.unique`: sorted list of the distinct elements. -/
def unique [LinearOrder α] (l : List α) : List α :=
  l.dedup.insertionSort (· ≤ ·)

/-- Model of `antero.categorical._mask_assign` for 1-D shapes (the only
shapes the encoders use, rows counting as single elements):
`array = np.full(shape, init); array[mask] = values`.  The `keep` list is the
boolean mask; positions where it is `true` receive the `values` in order,
every other position holds the fill value `init`. -/
def mask_assign : List Bool → List β → β → List β
  | [], _, _ => []
  | true :: ms, v :: vs, init => v :: mask_assign ms vs init
  | true :: ms, [], init => init :: mask_assign ms [] init
  | false :: ms, vs, init => init :: mask_assign ms vs init

end HelperDefs

section OneHotDefs

variable {α : Type} [DecidableEq α] [Inhabited α]

/-- `OneHotEncoder.transform_to_labels`: the source builds a zero `int` array
and scatters `j` into position `i` for every match
`samples[i] == categories[j]` found by `np.argwhere`.  With the fitted
categories unique (guaranteed by `fit`, which uses `np.unique`) this is
exactly: the category index when the sample is a known category, and the
untouched initial value `0` otherwise. -/
def OneHot.transform_to_labels (cats : List α) (samples : List α) : List ℕ :=
  samples.map fun s => if s ∈ cats then firstIndex s cats else 0

/-- `OneHotEncoder.transform_from_labels`: `np.eye(n_categories)[labels]`. -/
def OneHot.transform_from_labels (n : ℕ) (labels : List ℕ) : List (List ℕ) :=
  labels.map (eyeRow n)

/-- `OneHotEncoder.inverse_to_labels`: `np.argmax(encoded, axis=-1)`. -/
def OneHot.inverse_to_labels (encoded : List (List ℕ)) : List ℕ :=
  encoded.map argmaxFirst

/-- `OneHotEncoder.inverse_from_labels`: `self.categories[labels]` (numpy
fancy indexing; labels are in range in every use below). -/
def OneHot.inverse_from_labels (cats : List α) (labels : List ℕ) : List α :=
  labels.map fun l => cats.getD l default

/-- `OneHotEncoder.transform`. -/
def OneHot.transform (cats : List α) (samples : List α) : List (List ℕ) :=
  OneHot.transform_from_labels cats.length (OneHot.transform_to_labels cats samples)

/-- `OneHotEncoder.inverse`. -/
def OneHot.inverse (cats : List α) (encoded : List (List ℕ)) : List α :=
  OneHot.inverse_from_labels cats (OneHot.inverse_to_labels encoded)

end OneHotDefs

section NanHotDefs

variable {α : Type} [DecidableEq α] [Inhabited α]

/-- The mask `samples.isnull() | ~samples.isin(self.categories)` computed by
`NanHotEncoder.transform_to_labels`: `true` marks a missing-or-unseen entry. -/
def NanHot.mask (cats : List α) : Option α → Bool
  | none => true
  | some v => decide (v ∉ cats)

/-- `NanHotEncoder.transform_to_labels`: base labels of the kept entries are
scattered back at the unmasked positions of an array pre-filled with the NaN
sentinel (`none`). -/
def NanHot.transform_to_labels (cats : List α) (samples : List (Option α)) :
    List (Option ℕ) :=
  mask_assign (samples.map fun s => !(NanHot.mask cats s))
    ((OneHot.transform_to_labels cats (samples.filterMap fun s =>
      match s with
      | none => none
      | some v => if v ∈ cats then some v else none)).map some)
    none

/-- `NanHotEncoder.transform_from_labels`: the non-NaN labels are base-encoded
and scattered back, NaN positions becoming all-zero rows (`init=0`).  The
multi-dimensional `ProgrammingError` branch cannot arise here because the
embedding is typed as one-dimensional. -/
def NanHot.transform_from_labels (cats : List α) (labels : List (Option ℕ)) :
    List (List ℕ) :=
  mask_assign (labels.map Option.isSome)
    (OneHot.transform_from_labels cats.length (labels.filterMap id))
    (zeroRow cats.length)

/-- `NanHotEncoder.inverse_to_lables` (sic, the method name is misspelled in
the source): rows summing to zero are missing, the rest go through the base
argmax, and the result is scattered into a NaN-filled array. -/
def NanHot.inverse_to_lables (encoded : List (List ℕ)) : List (Option ℕ) :=
  mask_assign (encoded.map fun row => decide (row.sum ≠ 0))
    ((OneHot.inverse_to_labels (encoded.filter fun row => decide (row.sum ≠ 0))).map some)
    none

/-- `NanHotEncoder.inverse_from_labels`: non-null labels are replaced by their
category value, null positions stay null. -/
def NanHot.inverse_from_labels (cats : List α) (labels : List (Option ℕ)) :
    List (Option α) :=
  mask_assign (labels.map Option.isSome)
    ((OneHot.inverse_from_labels cats (labels.filterMap id)).map some)
    none

/-- `NanHotEncoder.transform`. -/
def NanHot.transform (cats : List α) (samples : List (Option α)) : List (List ℕ) :=
  NanHot.transform_from_labels cats (NanHot.transform_to_labels cats samples)

/-- `NanHotEncoder.inverse`: the source calls `self.inverse_to_labels`, which
resolves to the *base* `OneHotEncoder.inverse_to_labels` because the subclass
override is spelled `inverse_to_lables`.  The base argmax never produces NaN,
so `inverse_from_labels` receives an all-`some` label list. -/
def NanHot.inverse (cats : List α) (encoded : List (List ℕ)) : List (Option α) :=
  NanHot.inverse_from_labels cats ((OneHot.inverse_to_labels encoded).map some)

end NanHotDefs

section CatHotDefs

variable {α : Type} [DecidableEq α] [Inhabited α]

/-- A pandas categorical series: a category dictionary plus integer codes,
`-1` being the conventional missing code. -/
structure CatSeries (α : Type) where
  cats : List α
  codes : List ℤ

/-- The values carried by a categorical series (`none` for code `-1`). -/
def CatSeries.values (s : CatSeries α) : List (Option α) :=
  s.codes.map fun (c : ℤ) => if 0 ≤ c then s.cats[c.toNat]? else none

/-- `samples.cat.set_categories(self.categories).cat.codes` inside
`CatHotEncoder.transform`: every value is re-coded against the fitted
categories, values outside them (and missing values) becoming `-1`. -/
def CatHot.recode (fitted : List α) (s : CatSeries α) : List ℤ :=
  s.codes.map fun (c : ℤ) =>
    match (if 0 ≤ c then s.cats[c.toNat]? else none) with
    | none => -1
    | some v => if v ∈ fitted then (firstIndex v fitted : ℤ) else -1

/-- `CatHotEncoder.transform_from_labels`: identical to the NaN-aware variant
but the missing sentinel is the code `-1`. -/
def CatHot.transform_from_labels (fitted : List α) (labels : List ℤ) :
    List (List ℕ) :=
  mask_assign (labels.map fun c => decide (c ≠ -1))
    (OneHot.transform_from_labels fitted.length
      ((labels.filter fun c => decide (c ≠ -1)).map Int.toNat))
    (zeroRow fitted.length)

/-- `CatHotEncoder.inverse_to_lables` (sic, misspelled in the source): like
the NaN-aware variant but all-zero rows are filled with `-1`. -/
def CatHot.inverse_to_lables (encoded : List (List ℕ)) : List ℤ :=
  mask_assign (encoded.map fun row => decide (row.sum ≠ 0))
    ((OneHot.inverse_to_labels (encoded.filter fun row => decide (row.sum ≠ 0))).map
      Int.ofNat)
    (-1)

/-- `CatHotEncoder.transform`. -/
def CatHot.transform (fitted : List α) (s : CatSeries α) : List (List ℕ) :=
  CatHot.transform_from_labels fitted (CatHot.recode fitted s)

/-- `CatHotEncoder.inverse`: `pd.Categorical.from_codes(codes, categories)`
where `codes = self.inverse_to_labels(encoded)` resolves to the *base*
`OneHotEncoder.inverse_to_labels` (the subclass override is spelled
`inverse_to_lables`), so the codes are plain argmax values, never `-1`. -/
def CatHot.inverse (fitted : List α) (encoded : List (List ℕ)) : CatSeries α :=
  ⟨fitted, (OneHot.inverse_to_labels encoded).map Int.ofNat⟩

end CatHotDefs

section EncoderStateDefs

variable {α : Type} [LinearOrder α] [DecidableEq α]

/-- The mutable state shared by all three encoder classes: the fitted
categories, absent (`None`) until `fit` is called. -/
structure OneHotEncoder (α : Type) where
  rawCategories : Option (List α)

/-- `OneHotEncoder.__init__`: `self._categories = None`. -/
def OneHotEncoder.init : OneHotEncoder α := ⟨none⟩

/-- The `categories` read accessor: raises
`ProgrammingError('Encoder not fitted!')` before `fit`. -/
def OneHotEncoder.categories (e : OneHotEncoder α) : Except String (List α) :=
  match e.rawCategories with
  | none => Except.error "Encoder not fitted!"
  | some cs => Except.ok cs

/-- The `n_categories` accessor: `len(self.categories)`, hence it propagates
the not-fitted error. -/
def OneHotEncoder.n_categories (e : OneHotEncoder α) : Except String ℕ :=
  match e.categories with
  | Except.error msg => Except.error msg
  | Except.ok cs => Except.ok cs.length

/-- `OneHotEncoder.fit`: `self.categories = np.unique(samples)`. -/
def OneHotEncoder.fit (e : OneHotEncoder α) (samples : List α) : OneHotEncoder α :=
  ⟨some (unique samples)⟩

/-- `NanHotEncoder.fit`: drops the null entries, then the base fit. -/
def NanHotEncoder.fit (e : OneHotEncoder α) (samples : List (Option α)) :
    OneHotEncoder α :=
  OneHotEncoder.fit e (samples.filterMap id)

/-- `CatHotEncoder.fit`: base fit on the category dictionary of the series. -/
def CatHotEncoder.fit (e : OneHotEncoder α) (s : CatSeries α) : OneHotEncoder α :=
  OneHotEncoder.fit e s.cats

end EncoderStateDefs

section SomDefs

/-- All multi-indices of a grid of the given shape, in row-major order (the
order of `np.indices(shape).reshape(k, -1)` columns and of
`np.unravel_index(0.., shape)`). -/
def gridIndices : List ℕ → List (List ℕ)
  | [] => [[]]
  | n :: ns => (List.range n).flatMap fun i => (gridIndices ns).map fun t => i :: t

/-- Squared Euclidean distance between two grid multi-indices. -/
def sqDistIx (i j : List ℕ) : ℤ :=
  ((i.zip j).map fun p => ((p.1 : ℤ) - (p.2 : ℤ)) ^ 2).sum

/-- The neighbor test `np.logical_and(ix_d > 0, ix_d <= d)` of `umatrix`,
phrased on squared distances: for the Euclidean index distance `ix_d ≥ 0`,
`0 < ix_d ∧ ix_d ≤ d` holds iff `0 < ix_d² ∧ 0 ≤ d ∧ ix_d² ≤ d²`. -/
def isNeighbor (d : ℚ) (i j : List ℕ) : Bool :=
  decide (0 < sqDistIx i j) && decide (0 ≤ d) && decide (((sqDistIx i j : ℤ) : ℚ) ≤ d ^ 2)

/-- A real-valued numpy array: a shape together with the entry at each
multi-index (entries at out-of-range indices are irrelevant junk). -/
structure NDArray where
  shape : List ℕ
  data : List ℕ → ℝ

/-- `antero.som.measures.umatrix`.  `map_shape = weights.shape[:-2]` (the SOM
collaborator stores its grid with a trailing broadcast axis, shape
`map_shape + (1, n_features)`).  For each grid index `i` the source computes
`dist = np.linalg.norm(weights[locs] - weights[i])` — with no `axis`
argument, so this is the 2-norm of the *flattened* difference stack, a
scalar: the square root of the sum, over every qualifying neighbor `j` and
every trailing position `t`, of `(w[j,t] - w[i,t])²`.  `np.mean(dist)` of
that scalar is the scalar itself.  When no neighbor qualifies the flattened
array is empty and its norm is `0`. -/
noncomputable def umatrix (w : NDArray) (d : ℚ) : NDArray :=
  let ms := w.shape.dropLast.dropLast
  let trail := w.shape.drop ms.length
  { shape := ms
    data := fun i =>
      Real.sqrt ((((gridIndices ms).filter (isNeighbor d i)).map fun j =>
        ((gridIndices trail).map fun t => (w.data (j ++ t) - w.data (i ++ t)) ^ 2).sum).sum) }

/-- Modelled from the spec: the u-matrix as the specification words it — for
each grid index `i`, the *mean over the qualifying neighbors `j`* of the
feature-space Euclidean distance between the weight vectors of `j` and `i`
(an empty neighbor list giving the undefined value `0/0`, the embedding of
NaN over `ℝ`). -/
noncomputable def umatrixMean (w : NDArray) (d : ℚ) : NDArray :=
  let ms := w.shape.dropLast.dropLast
  let trail := w.shape.drop ms.length
  { shape := ms
    data := fun i =>
      let nbrs := (gridIndices ms).filter (isNeighbor d i)
      (nbrs.map fun j =>
        Real.sqrt (((gridIndices trail).map fun t =>
          (w.data (j ++ t) - w.data (i ++ t)) ^ 2).sum)).sum / (nbrs.length : ℝ) }

/-- Squared Euclidean feature-space distance, `np.sum(diff ** 2, axis=-1)`
for one grid cell and one sample. -/
def sqDistQ (v x : List ℚ) : ℚ := ((v.zip x).map fun p => (p.1 - p.2) ^ 2).sum

/-- The per-sample column of `dist.reshape(-1, n_data)` in
`topographic_error`: squared distances from every grid cell (row-major flat
order) to the sample.  `w` maps a grid multi-index to the cell's weight
vector (the `(1, n_features)` block squeezed). -/
def bmuDists (ms : List ℕ) (w : List ℕ → List ℚ) (s : List ℚ) : List ℚ :=
  (gridIndices ms).map fun c => sqDistQ (w c) s

/-- Flat index of the best matching unit: `np.argsort(dist, axis=0)[0]`,
ties resolved to the first index. -/
def bmu1 (ms : List ℕ) (w : List ℕ → List ℚ) (s : List ℚ) : ℕ :=
  argminFirst (bmuDists ms w s)

/-- Flat index of the second best matching unit: `np.argsort(dist, axis=0)[1]`
under a stable ranking — the minimum of the distances with the first BMU
removed, mapped back to the original indexing. -/
def bmu2 (ms : List ℕ) (w : List ℕ → List ℚ) (s : List ℚ) : ℕ :=
  let l := bmuDists ms w s
  let b := bmu1 ms w s
  let j := argminFirst (l.eraseIdx b)
  if b ≤ j then j + 1 else j

/-- The per-sample error indicator of `topographic_error`:
`1 if np.linalg.norm(b_ix[:, i] - b_ix[:, i+n_data]) > neighbor_radius else 0`,
with the norm comparison phrased on squares (`‖v‖ > r` iff `r < 0` or
`‖v‖² > r²`). -/
def farBMU (ms : List ℕ) (w : List ℕ → List ℚ) (r : ℚ) (s : List ℚ) : Bool :=
  decide (r < 0) ||
    decide (r ^ 2 <
      ((sqDistIx ((gridIndices ms).getD (bmu1 ms w s) [])
        ((gridIndices ms).getD (bmu2 ms w s) []) : ℤ) : ℚ))

/-- `antero.som.measures.topographic_error`: the mean of the per-sample error
indicators (`np.mean(errors)`), i.e. their sum divided by the number of
samples. -/
def topographic_error (ms : List ℕ) (w : List ℕ → List ℚ) (x : List (List ℚ))
    (r : ℚ) : ℚ :=
  ((x.map fun s => if farBMU ms w r s then (1 : ℚ) else 0).sum) / (x.length : ℚ)

/-- A concrete 1-D SOM weight grid with three cells and one feature
(values `0`, `1`, `3`), stored in the collaborator's layout
`map_shape + (1, n_features) = (3, 1, 1)`. -/
noncomputable def somW3 : NDArray :=
  ⟨[3, 1, 1], fun i => match i.headD 0 with
    | 0 => 0
    | 1 => 1
    | _ => 3⟩

/-- A degenerate single-cell SOM weight grid of layout `(1, 1, 1)`. -/
noncomputable def somW1 : NDArray := ⟨[1, 1, 1], fun _ => 0⟩

/-- A weight array of shape `map_shape + (n_features,) = (2, 2) + (3,)`,
exactly the layout the specification ascribes to the SOM collaborator. -/
noncomputable def somW223 : NDArray := ⟨[2, 2, 3], fun _ => 0⟩

/-- A weight array of the layout the SOM collaborator actually uses,
`map_shape + (1, n_features) = (2, 2) + (1, 3)`. -/
noncomputable def somW2213 : NDArray := ⟨[2, 2, 1, 3], fun _ => 0⟩

end SomDefs

/-! ## Theorems -/

section HelperLemmas

variable {α : Type} {β : Type}

theorem firstIndex_lt_length [DecidableEq α] {a : α} {l : List α} (h : a ∈ l) :
    firstIndex a l < l.length := by
  induction l with
  | nil => cases h
  | cons b t ih =>
    by_cases hb : b = a
    · simp [firstIndex, hb]
    · rw [List.mem_cons] at h
      rcases h with h | h
      · exact absurd h.symm hb
      · simpa [firstIndex, hb] using ih h

theorem firstIndex_get? [DecidableEq α] {a : α} {l : List α} (h : a ∈ l) :
    l[firstIndex a l]? = some a := by
  induction l with
  | nil => cases h
  | cons b t ih =>
    by_cases hb : b = a
    · simp [firstIndex, hb]
    · rw [List.mem_cons] at h
      rcases h with h | h
      · exact absurd h.symm hb
      · simpa [firstIndex, hb] using ih h

theorem firstIndex_getD [DecidableEq α] [Inhabited α] {a : α} {l : List α} (h : a ∈ l) :
    l.getD (firstIndex a l) default = a := by
  simp [List.getD_eq_getElem?_getD, firstIndex_get? h]

/-- `firstIndex` really is the first matching position. -/
theorem firstIndex_eq [DecidableEq α] {a : α} {l : List α} {j : ℕ}
    (hj : l[j]? = some a) (hbefore : ∀ k < j, l[k]? ≠ some a) :
    firstIndex a l = j := by
  induction l generalizing j with
  | nil => simp at hj
  | cons b t ih =>
    cases j with
    | zero =>
      simp at hj
      simp [firstIndex, hj]
    | succ j =>
      have hb : b ≠ a := by
        intro hba
        exact hbefore 0 (Nat.succ_pos j) (by simp [hba])
      simp at hj
      have := ih hj (fun k hk => by
        have := hbefore (k + 1) (Nat.succ_lt_succ hk)
        simpa using this)
      simp [firstIndex, hb, this]

theorem foldl_max_mem (x : ℕ) (xs : List ℕ) :
    xs.foldl max x = x ∨ xs.foldl max x ∈ xs := by
  induction xs generalizing x with
  | nil => left; rfl
  | cons y t ih =>
    rcases ih (max x y) with h | h
    · rcases max_choice x y with hm | hm
      · left; simpa [hm] using h
      · right
        rw [List.foldl_cons, h, hm]
        exact List.mem_cons_self y t
    · right; exact List.mem_cons_of_mem y h

theorem le_foldl_max (x : ℕ) (xs : List ℕ) :
    x ≤ xs.foldl max x ∧ ∀ y ∈ xs, y ≤ xs.foldl max x := by
  induction xs generalizing x with
  | nil => exact ⟨le_refl x, by simp⟩
  | cons z t ih =>
    obtain ⟨h1, h2⟩ := ih (max x z)
    refine ⟨le_trans (le_max_left x z) h1, ?_⟩
    intro y hy
    rw [List.mem_cons] at hy
    rcases hy with hy | hy
    · subst hy; exact le_trans (le_max_right x y) h1
    · exact h2 y hy

theorem listMax_mem {l : List ℕ} (h : l ≠ []) : listMax l ∈ l := by
  cases l with
  | nil => exact absurd rfl h
  | cons x xs =>
    rcases foldl_max_mem x xs with h1 | h1
    · rw [show listMax (x :: xs) = xs.foldl max x from rfl, h1]
      exact List.mem_cons_self x xs
    · exact List.mem_cons_of_mem x h1

theorem le_listMax {l : List ℕ} : ∀ y ∈ l, y ≤ listMax l := by
  cases l with
  | nil => simp
  | cons x xs =>
    intro y hy
    obtain ⟨h1, h2⟩ := le_foldl_max x xs
    rw [List.mem_cons] at hy
    rcases hy with hy | hy
    · subst hy; exact h1
    · exact h2 y hy

theorem argmaxFirst_eq {l : List ℕ} {i : ℕ} (hi : i < l.length)
    (hmax : ∀ j, (hj : j < l.length) → l[j] ≤ l[i])
    (hfirst : ∀ j, (hj : j < i) → l.get ⟨j, lt_trans hj hi⟩ < l[i]) :
    argmaxFirst l = i := by
  have hne : l ≠ [] := by
    intro h; rw [h] at hi; simp at hi
  have hmem := listMax_mem hne
  obtain ⟨j, hjlen, hjval⟩ := List.mem_iff_getElem.mp hmem
  have hle : listMax l ≤ l[i] := hjval ▸ hmax j hjlen
  have hge : l[i] ≤ listMax l := le_listMax _ (l.getElem_mem hi)
  have hval : listMax l = l[i] := le_antisymm hle hge
  refine firstIndex_eq (by simp [hval]) ?_
  intro k hk
  have hkl : k < l.length := lt_trans hk hi
  have : l[k] < l[i] := hfirst k hk
  rw [List.getElem?_eq_getElem hkl]
  intro hcontra
  have : l[k] = listMax l := by simpa using hcontra
  omega

/-- `firstIndex` retrieves its element under any default. -/
theorem firstIndex_getD_any [DecidableEq α] {a : α} {l : List α} (h : a ∈ l) (d : α) :
    l.getD (firstIndex a l) d = a := by
  simp [List.getD_eq_getElem?_getD, firstIndex_get? h]

theorem foldl_min_mem (x : ℚ) (xs : List ℚ) :
    xs.foldl min x = x ∨ xs.foldl min x ∈ xs := by
  induction xs generalizing x with
  | nil => left; rfl
  | cons y t ih =>
    rcases ih (min x y) with h | h
    · rcases min_choice x y with hm | hm
      · left; simpa [hm] using h
      · right
        rw [List.foldl_cons, h, hm]
        exact List.mem_cons_self y t
    · right; exact List.mem_cons_of_mem y h

theorem foldl_min_le (x : ℚ) (xs : List ℚ) :
    xs.foldl min x ≤ x ∧ ∀ y ∈ xs, xs.foldl min x ≤ y := by
  induction xs generalizing x with
  | nil => exact ⟨le_refl x, by simp⟩
  | cons z t ih =>
    obtain ⟨h1, h2⟩ := ih (min x z)
    refine ⟨le_trans h1 (min_le_left x z), ?_⟩
    intro y hy
    rw [List.mem_cons] at hy
    rcases hy with hy | hy
    · subst hy; exact le_trans h1 (min_le_right x y)
    · exact h2 y hy

theorem listMin_mem {l : List ℚ} (h : l ≠ []) : listMin l ∈ l := by
  cases l with
  | nil => exact absurd rfl h
  | cons x xs =>
    rcases foldl_min_mem x xs with h1 | h1
    · rw [show listMin (x :: xs) = xs.foldl min x from rfl, h1]
      exact List.mem_cons_self x xs
    · exact List.mem_cons_of_mem x h1

theorem listMin_le {l : List ℚ} : ∀ y ∈ l, listMin l ≤ y := by
  cases l with
  | nil => simp
  | cons x xs =>
    intro y hy
    obtain ⟨h1, h2⟩ := foldl_min_le x xs
    rw [List.mem_cons] at hy
    rcases hy with hy | hy
    · subst hy; exact h1
    · exact h2 y hy

/-- Summing a 0/1 indicator over a list counts the hits (`np.mean` numerator). -/
theorem sum_indicator {β : Type} (p : β → Bool) (l : List β) :
    (l.map fun b => if p b then (1 : ℚ) else 0).sum = (l.countP p : ℚ) := by
  induction l with
  | nil => simp
  | cons b t ih =>
    cases hb : p b
    · simp [List.countP_cons, hb, ih]
    · simp [List.countP_cons, hb, ih]
      ring

theorem unique_nodup [LinearOrder α] (l : List α) : (unique l).Nodup :=
  (List.perm_insertionSort (· ≤ ·) l.dedup).nodup_iff.mpr l.nodup_dedup

theorem mem_unique [LinearOrder α] {a : α} {l : List α} :
    a ∈ unique l ↔ a ∈ l := by
  unfold unique
  rw [(List.perm_insertionSort (· ≤ ·) l.dedup).mem_iff, List.mem_dedup]

end HelperLemmas

section ElementwiseLemmas

variable {α : Type} {β : Type} {γ : Type} {δ : Type} [DecidableEq α] [Inhabited α]

/-- The masked scatter applied to the values of a filtered sublist acts
elementwise. -/
theorem mask_assign_filter_map (P : β → Bool) (f : β → γ) (init : γ) (l : List β) :
    mask_assign (l.map P) ((l.filter P).map f) init
      = l.map fun b => if P b then f b else init := by
  induction l with
  | nil => rfl
  | cons b t ih =>
    cases hP : P b
    · simp [mask_assign, List.filter_cons, hP, ih]
    · simp [mask_assign, List.filter_cons, hP, ih]

/-- The masked scatter applied to the values extracted from an option list
acts elementwise. -/
theorem mask_assign_filterMap_id (f : δ → γ) (init : γ) (labels : List (Option δ)) :
    mask_assign (labels.map Option.isSome) ((labels.filterMap id).map f) init
      = labels.map fun o => match o with | none => init | some i => f i := by
  induction labels with
  | nil => rfl
  | cons o t ih =>
    cases o with
    | none => simpa [mask_assign] using ih
    | some i => simpa [mask_assign] using ih

/-- `NanHotEncoder.transform_to_labels` acts elementwise: known values get
their category index, missing and unseen values get the NaN sentinel. -/
theorem nanHot_ttl_eq (cats : List α) (samples : List (Option α)) :
    NanHot.transform_to_labels cats samples = samples.map fun s =>
      match s with
      | none => none
      | some v => if v ∈ cats then some (firstIndex v cats) else none := by
  induction samples with
  | nil => rfl
  | cons s t ih =>
    simp only [NanHot.transform_to_labels, OneHot.transform_to_labels] at ih ⊢
    cases s with
    | none => simpa [NanHot.mask, mask_assign] using ih
    | some v =>
      by_cases hv : v ∈ cats
      · simpa [NanHot.mask, mask_assign, hv] using ih
      · simpa [NanHot.mask, mask_assign, hv] using ih

/-- `NanHotEncoder.transform_from_labels` acts elementwise: NaN labels give
all-zero rows, the rest one-hot rows. -/
theorem nanHot_tfl_eq (cats : List α) (labels : List (Option ℕ)) :
    NanHot.transform_from_labels cats labels = labels.map fun o =>
      match o with
      | none => zeroRow cats.length
      | some l => eyeRow cats.length l := by
  unfold NanHot.transform_from_labels OneHot.transform_from_labels
  rw [mask_assign_filterMap_id (eyeRow cats.length) (zeroRow cats.length) labels]
  refine List.map_congr_left ?_
  intro o ho
  cases o <;> rfl

/-- `NanHotEncoder.inverse_to_lables` acts elementwise: all-zero rows give
the NaN sentinel, the rest the base argmax. -/
theorem nanHot_itl_eq (encoded : List (List ℕ)) :
    NanHot.inverse_to_lables encoded = encoded.map fun row =>
      if row.sum = 0 then none else some (argmaxFirst row) := by
  unfold NanHot.inverse_to_lables OneHot.inverse_to_labels
  rw [List.map_map]
  rw [mask_assign_filter_map (fun row => decide (row.sum ≠ 0)) (some ∘ argmaxFirst)
    none encoded]
  refine List.map_congr_left ?_
  intro row hrow
  by_cases h : row.sum = 0 <;> simp [h]

/-- `NanHotEncoder.inverse_from_labels` acts elementwise: null labels stay
null, the rest are looked up in the fitted categories. -/
theorem nanHot_ifl_eq (cats : List α) (labels : List (Option ℕ)) :
    NanHot.inverse_from_labels cats labels = labels.map fun o =>
      o.map fun l => cats.getD l default := by
  unfold NanHot.inverse_from_labels OneHot.inverse_from_labels
  rw [List.map_map]
  rw [mask_assign_filterMap_id (some ∘ fun l => cats.getD l default) none labels]
  refine List.map_congr_left ?_
  intro o ho
  cases o <;> simp

/-- `CatHotEncoder.transform_from_labels` acts elementwise: code `-1` gives
an all-zero row, the rest one-hot rows. -/
theorem catHot_tfl_eq (fitted : List α) (labels : List ℤ) :
    CatHot.transform_from_labels fitted labels = labels.map fun c =>
      if c = -1 then zeroRow fitted.length else eyeRow fitted.length c.toNat := by
  unfold CatHot.transform_from_labels OneHot.transform_from_labels
  rw [List.map_map]
  rw [mask_assign_filter_map (fun c => decide (c ≠ -1)) (eyeRow fitted.length ∘ Int.toNat)
    (zeroRow fitted.length) labels]
  refine List.map_congr_left ?_
  intro c hc
  by_cases h : c = -1 <;> simp [h]

/-- `CatHotEncoder.inverse_to_lables` acts elementwise: all-zero rows give
the reserved code `-1`, the rest the base argmax. -/
theorem catHot_itl_eq (encoded : List (List ℕ)) :
    CatHot.inverse_to_lables encoded = encoded.map fun row =>
      if row.sum = 0 then (-1 : ℤ) else Int.ofNat (argmaxFirst row) := by
  unfold CatHot.inverse_to_lables OneHot.inverse_to_labels
  rw [List.map_map]
  rw [mask_assign_filter_map (fun row => decide (row.sum ≠ 0))
    (Int.ofNat ∘ argmaxFirst) (-1 : ℤ) encoded]
  refine List.map_congr_left ?_
  intro row hrow
  by_cases h : row.sum = 0 <;> simp [h]

end ElementwiseLemmas

section RowLemmas

/-- Sum of a one-hot row: `1` when the label is in range, else `0`. -/
theorem eyeRow_sum (n l : ℕ) : (eyeRow n l).sum = if l < n then 1 else 0 := by
  induction n with
  | zero => simp [eyeRow]
  | succ n ih =>
    rw [eyeRow, List.range_succ, List.map_append, List.sum_append]
    rw [show ((List.range n).map fun j => if j = l then 1 else 0) = eyeRow n l from rfl, ih]
    by_cases h1 : l < n
    · have h2 : n ≠ l := by omega
      have h3 : l < n + 1 := by omega
      simp [h2, h1, h3]
    · by_cases h2 : l = n
      · simp [h1, h2]
      · have h3 : ¬ l < n + 1 := by omega
        have h4 : n ≠ l := fun h => h2 h.symm
        simp [h1, h3, h4]

theorem zeroRow_sum (n : ℕ) : (zeroRow n).sum = 0 := by
  simp [zeroRow]

theorem eyeRow_length (n l : ℕ) : (eyeRow n l).length = n := by
  simp [eyeRow]

theorem eyeRow_getElem (n l j : ℕ) (hj : j < (eyeRow n l).length) :
    (eyeRow n l)[j] = if j = l then 1 else 0 := by
  simp [eyeRow] at hj ⊢

/-- `np.argmax` of a one-hot row recovers the label. -/
theorem argmaxFirst_eyeRow {n l : ℕ} (h : l < n) : argmaxFirst (eyeRow n l) = l := by
  have hlen : (eyeRow n l).length = n := eyeRow_length n l
  refine argmaxFirst_eq (by rw [hlen]; exact h) ?_ ?_
  · intro j hj
    rw [eyeRow_getElem n l j hj, eyeRow_getElem n l l (by rw [hlen]; exact h)]
    by_cases hjl : j = l <;> simp [hjl]
  · intro j hj
    have hjn : j < (eyeRow n l).length := lt_trans hj (by rw [hlen]; exact h)
    rw [List.get_eq_getElem, eyeRow_getElem n l j hjn,
      eyeRow_getElem n l l (by rw [hlen]; exact h)]
    have : j ≠ l := Nat.ne_of_lt hj
    simp [this]

/-- `np.argmax` of an all-zero row is `0`: the base encoder defaults to the
first category. -/
theorem argmaxFirst_zeroRow (n : ℕ) : argmaxFirst (zeroRow n) = 0 := by
  cases n with
  | zero => rfl
  | succ n =>
    refine argmaxFirst_eq (by simp [zeroRow]) ?_ ?_
    · intro j hj
      simp [zeroRow]
    · intro j hj
      omega

end RowLemmas

section SanityChecks

example : OneHot.transform [1, 2, 3, 4] [1, 3, 4, 1] =
    [[1,0,0,0],[0,0,1,0],[0,0,0,1],[1,0,0,0]] := by decide

example : OneHot.inverse [1, 2, 3, 4] [[0,1,0,0]] = [2] := by decide

example : NanHot.transform [1, 2, 3, 4] [none, some 3, some 4, some 1] =
    [[0,0,0,0],[0,0,1,0],[0,0,0,1],[1,0,0,0]] := by decide

example : NanHot.inverse_to_lables [[0,0,0,0],[0,0,1,0]] = [none, some 2] := by
  decide

example : NanHot.inverse [1, 2] [[0,0],[0,1]] = [some 1, some 2] := by decide

example : CatHot.transform [1, 2, 3, 4] ⟨[1, 2, 3, 4], [-1, 2, 3, 0]⟩ =
    [[0,0,0,0],[0,0,1,0],[0,0,0,1],[1,0,0,0]] := by decide

example : CatHot.inverse_to_lables [[0,0,0,0],[0,0,1,0]] = [-1, 2] := by decide

example : (CatHot.inverse [1, 2] [[0,0],[0,1]]).values = [some 1, some 2] := by
  decide

example : topographic_error [2] (fun c => [(c.getD 0 0 : ℚ)]) [[0]] 1 = 0 := by
  norm_num [topographic_error, farBMU, bmu1, bmu2, bmuDists, gridIndices, sqDistQ,
    argminFirst, listMin, firstIndex, sqDistIx, List.range, List.range.loop]

end SanityChecks

section ClaimC1

/-- Claim C1: for every fitted encoder (OneHotEncoder, NanHotEncoder,
CatHotEncoder) and every samples collection whose elements are all drawn from
the fitted category set (no missing values), `inverse(transform(samples))`
equals the samples exactly, for all three variants.  (For the categorical
variant "equals exactly" compares the value sequences of the two categorical
series.) -/
theorem c1_roundtrip {α : Type} [DecidableEq α] [Inhabited α] (cats : List α) :
    (∀ samples : List α, (∀ s ∈ samples, s ∈ cats) →
      OneHot.inverse cats (OneHot.transform cats samples) = samples)
    ∧ (∀ samples : List (Option α), (∀ o ∈ samples, ∃ v, o = some v ∧ v ∈ cats) →
      NanHot.inverse cats (NanHot.transform cats samples) = samples)
    ∧ (∀ s : CatSeries α,
      (∀ c ∈ s.codes, 0 ≤ c ∧ ∃ v, s.cats[c.toNat]? = some v ∧ v ∈ cats) →
      (CatHot.inverse cats (CatHot.transform cats s)).values = s.values) := by
  refine ⟨?_, ?_, ?_⟩
  · intro samples h
    unfold OneHot.inverse OneHot.transform OneHot.inverse_from_labels
      OneHot.inverse_to_labels OneHot.transform_from_labels OneHot.transform_to_labels
    simp only [List.map_map]
    conv_rhs => rw [← List.map_id samples]
    refine List.map_congr_left ?_
    intro s hs
    have hmem := h s hs
    have hlt : firstIndex s cats < cats.length := firstIndex_lt_length hmem
    simp [Function.comp, hmem, argmaxFirst_eyeRow hlt, firstIndex_getD hmem,
      firstIndex_get? hmem]
  · intro samples h
    show NanHot.inverse cats
      (NanHot.transform_from_labels cats (NanHot.transform_to_labels cats samples))
      = samples
    rw [nanHot_ttl_eq, nanHot_tfl_eq, List.map_map]
    unfold NanHot.inverse OneHot.inverse_to_labels
    rw [List.map_map, List.map_map, nanHot_ifl_eq, List.map_map]
    conv_rhs => rw [← List.map_id samples]
    refine List.map_congr_left ?_
    intro o ho
    obtain ⟨v, rfl, hv⟩ := h o ho
    have hlt : firstIndex v cats < cats.length := firstIndex_lt_length hv
    simp [Function.comp, hv, argmaxFirst_eyeRow hlt, firstIndex_getD hv,
      firstIndex_get? hv]
  · intro s h
    show (CatHot.inverse cats
      (CatHot.transform_from_labels cats (CatHot.recode cats s))).values = s.values
    rw [catHot_tfl_eq]
    unfold CatHot.inverse CatHot.recode CatSeries.values OneHot.inverse_to_labels
    simp only [List.map_map]
    refine List.map_congr_left ?_
    intro c hc
    obtain ⟨hc0, v, hget, hv⟩ := h c hc
    have hlt : firstIndex v cats < cats.length := firstIndex_lt_length hv
    have h1 : (if (0:ℤ) ≤ c then s.cats[c.toNat]? else none) = some v := by
      rw [if_pos hc0, hget]
    have hne : ((firstIndex v cats : ℤ)) ≠ -1 := by omega
    simp [Function.comp, h1, hget, hv, hne, argmaxFirst_eyeRow hlt,
      firstIndex_get? hv, hc0]

/-- Witness for C1 at a concrete fitted encoder (categories `[1,2,3,4]`,
samples `[1,3,4,1]` and their NaN-aware and categorical counterparts). -/
theorem c1_roundtrip_witness :
    ((∀ s ∈ ([1, 3, 4, 1] : List ℕ), s ∈ ([1, 2, 3, 4] : List ℕ))
      ∧ OneHot.inverse [1, 2, 3, 4] (OneHot.transform [1, 2, 3, 4] [1, 3, 4, 1])
          = [1, 3, 4, 1])
    ∧ ((∀ o ∈ ([some 1, some 3] : List (Option ℕ)),
          ∃ v, o = some v ∧ v ∈ ([1, 2, 3, 4] : List ℕ))
      ∧ NanHot.inverse [1, 2, 3, 4] (NanHot.transform [1, 2, 3, 4] [some 1, some 3])
          = [some 1, some 3])
    ∧ ((∀ c ∈ (CatSeries.mk ([1, 2, 3, 4] : List ℕ) [2, 0]).codes, 0 ≤ c ∧
          ∃ v, (CatSeries.mk ([1, 2, 3, 4] : List ℕ) [2, 0]).cats[c.toNat]? = some v
            ∧ v ∈ ([1, 2, 3, 4] : List ℕ))
      ∧ (CatHot.inverse [1, 2, 3, 4]
          (CatHot.transform [1, 2, 3, 4] (CatSeries.mk [1, 2, 3, 4] [2, 0]))).values
          = (CatSeries.mk ([1, 2, 3, 4] : List ℕ) [2, 0]).values) :=
  ⟨⟨by decide, (c1_roundtrip [1, 2, 3, 4]).1 [1, 3, 4, 1] (by decide)⟩,
   ⟨by decide, (c1_roundtrip [1, 2, 3, 4]).2.1 [some 1, some 3] (by decide)⟩,
   ⟨by decide, (c1_roundtrip [1, 2, 3, 4]).2.2 (CatSeries.mk [1, 2, 3, 4] [2, 0])
      (by decide)⟩⟩

end ClaimC1

section ClaimC2

/-- Claim C2 (code bug): `transform` of `k` NaN entries does yield `k`
all-zero rows (first conjunct), but `inverse` of an all-zero row yields the
*first category*, not a null entry: the subclass method implementing the
claimed behavior is misspelled `inverse_to_lables` and is therefore never
called by `inverse`, which resolves to the base argmax.  The second conjunct
evaluates the code at the failing input (categories `[1, 2]`, encoded
`[[0, 0]]`), the third shows the dead, misspelled override would indeed have
produced the null entry the claim (and the class docstring) promises. -/
theorem c2_nan_missing_symmetry {α : Type} [DecidableEq α] [Inhabited α] :
    (∀ (cats : List α) (k : ℕ),
      NanHot.transform cats (List.replicate k none)
        = List.replicate k (zeroRow cats.length))
    ∧ NanHot.inverse [1, 2] [[0, 0]] = [some 1]
    ∧ NanHot.inverse_to_lables [[0, 0]] = [none] := by
  refine ⟨?_, by decide, by decide⟩
  intro cats k
  show NanHot.transform_from_labels cats
    (NanHot.transform_to_labels cats (List.replicate k none))
    = List.replicate k (zeroRow cats.length)
  rw [nanHot_ttl_eq, List.map_replicate, nanHot_tfl_eq, List.map_replicate]

end ClaimC2

section ClaimC5

/-- Claim C5: the base OneHotEncoder silently defaults to the first category:
`transform_to_labels` maps any sample absent from the fitted categories to
label `0`, and `inverse_to_labels` maps any all-zero row to label `0`
(and `inverse` therefore to the first category); both are total functions in
the model — no error path exists in the source for these inputs. -/
theorem c5_default_to_first {α : Type} [DecidableEq α] [Inhabited α] :
    (∀ (cats : List α) (samples : List α) (i : ℕ) (s : α),
      samples[i]? = some s → s ∉ cats →
      (OneHot.transform_to_labels cats samples)[i]? = some 0)
    ∧ (∀ (cats : List α) (encoded : List (List ℕ)) (i n : ℕ),
      encoded[i]? = some (zeroRow n) →
      (OneHot.inverse_to_labels encoded)[i]? = some 0
        ∧ (OneHot.inverse cats encoded)[i]? = some (cats.getD 0 default)) := by
  constructor
  · intro cats samples i s hs hmem
    unfold OneHot.transform_to_labels
    simp [List.getElem?_map, hs, hmem]
  · intro cats encoded i n henc
    constructor
    · unfold OneHot.inverse_to_labels
      simp [List.getElem?_map, henc, argmaxFirst_zeroRow]
    · unfold OneHot.inverse OneHot.inverse_from_labels OneHot.inverse_to_labels
      simp [List.getElem?_map, henc, argmaxFirst_zeroRow]

/-- Witness for C5: categories `[1, 2]`, the unseen sample `7` maps to label
`0`, and the all-zero row `[0, 0]` inverts to label `0` / category `1`. -/
theorem c5_default_to_first_witness :
    (([7, 2] : List ℕ)[0]? = some 7 ∧ (7 : ℕ) ∉ ([1, 2] : List ℕ)
      ∧ (OneHot.transform_to_labels [1, 2] [7, 2])[0]? = some 0)
    ∧ (([[0, 0]] : List (List ℕ))[0]? = some (zeroRow 2)
      ∧ (OneHot.inverse_to_labels [[0, 0]])[0]? = some 0
      ∧ (OneHot.inverse ([1, 2] : List ℕ) [[0, 0]])[0]? = some 1) :=
  ⟨⟨by decide, by decide,
    (c5_default_to_first).1 [1, 2] [7, 2] 0 7 (by decide) (by decide)⟩,
   ⟨by decide,
    ((c5_default_to_first).2 [1, 2] [[0, 0]] 0 2 (by decide)).1,
    ((c5_default_to_first (α := ℕ)).2 [1, 2] [[0, 0]] 0 2 (by decide)).2⟩⟩

end ClaimC5

section ClaimC6

/-- Claim C6 (code bug): the misspelled override `inverse_to_lables` does map
all-zero rows to the reserved code `-1` (never NaN) and the code `-1` does
round-trip through `transform_from_labels` and that override (first three
conjuncts, matching the claim and the class docstring).  But the accessible
spelling `inverse_to_labels` resolves to the base argmax and maps the
all-zero row to `0`, and `inverse` consequently decodes it as the first
category — the round trip promised by the claim is broken by the typo
(last two conjuncts evaluate the code at the failing input). -/
theorem c6_cat_sentinel :
    CatHot.inverse_to_lables [[0, 0]] = [-1]
    ∧ CatHot.transform_from_labels ([1, 2] : List ℕ) [-1] = [[0, 0]]
    ∧ CatHot.inverse_to_lables
        (CatHot.transform_from_labels ([1, 2] : List ℕ) [-1]) = [-1]
    ∧ OneHot.inverse_to_labels [[0, 0]] = [0]
    ∧ (CatHot.inverse ([1, 2] : List ℕ) [[0, 0]]).values = [some 1] := by
  refine ⟨by decide, by decide, by decide, by decide, by decide⟩

end ClaimC6

section ClaimC7

/-- Claim C7: for every fitted encoder variant, every row of the one-hot
matrix produced by `transform` and by `transform_from_labels` (on valid
label inputs: labels below `n_categories`, codes in `[-1, n)`) sums to `0`
or `1`, never more. -/
theorem c7_row_sums {α : Type} [DecidableEq α] [Inhabited α] :
    (∀ (n : ℕ) (labels : List ℕ), (∀ l ∈ labels, l < n) →
      ∀ row ∈ OneHot.transform_from_labels n labels, row.sum = 0 ∨ row.sum = 1)
    ∧ (∀ (cats : List α) (samples : List α), cats ≠ [] →
      ∀ row ∈ OneHot.transform cats samples, row.sum = 0 ∨ row.sum = 1)
    ∧ (∀ (cats : List α) (labels : List (Option ℕ)),
      (∀ l : ℕ, some l ∈ labels → l < cats.length) →
      ∀ row ∈ NanHot.transform_from_labels cats labels, row.sum = 0 ∨ row.sum = 1)
    ∧ (∀ (cats : List α) (samples : List (Option α)),
      ∀ row ∈ NanHot.transform cats samples, row.sum = 0 ∨ row.sum = 1)
    ∧ (∀ (fitted : List α) (labels : List ℤ),
      (∀ c ∈ labels, -1 ≤ c ∧ c < (fitted.length : ℤ)) →
      ∀ row ∈ CatHot.transform_from_labels fitted labels, row.sum = 0 ∨ row.sum = 1)
    ∧ (∀ (fitted : List α) (s : CatSeries α),
      ∀ row ∈ CatHot.transform fitted s, row.sum = 0 ∨ row.sum = 1) := by
  have hrow : ∀ (n l : ℕ), (eyeRow n l).sum = 0 ∨ (eyeRow n l).sum = 1 := by
    intro n l
    rw [eyeRow_sum]
    by_cases h : l < n <;> simp [h]
  have hzero : ∀ n : ℕ, (zeroRow n).sum = 0 ∨ (zeroRow n).sum = 1 := fun n =>
    Or.inl (zeroRow_sum n)
  refine ⟨?_, ?_, ?_, ?_, ?_, ?_⟩
  · intro n labels hval row hrow'
    unfold OneHot.transform_from_labels at hrow'
    obtain ⟨l, hl, rfl⟩ := List.mem_map.mp hrow'
    exact hrow n l
  · intro cats samples hne row hmem
    unfold OneHot.transform OneHot.transform_from_labels at hmem
    obtain ⟨l, hl, rfl⟩ := List.mem_map.mp hmem
    exact hrow cats.length l
  · intro cats labels hval row hmem
    rw [nanHot_tfl_eq] at hmem
    obtain ⟨o, ho, rfl⟩ := List.mem_map.mp hmem
    cases o with
    | none => exact hzero cats.length
    | some l => exact hrow cats.length l
  · intro cats samples row hmem
    unfold NanHot.transform at hmem
    rw [nanHot_tfl_eq] at hmem
    obtain ⟨o, ho, rfl⟩ := List.mem_map.mp hmem
    cases o with
    | none => exact hzero cats.length
    | some l => exact hrow cats.length l
  · intro fitted labels hval row hmem
    rw [catHot_tfl_eq] at hmem
    obtain ⟨c, hc, rfl⟩ := List.mem_map.mp hmem
    by_cases h : c = -1
    · simp only [h, if_pos]
      exact hzero fitted.length
    · simp only [h, if_neg, ite_false]
      exact hrow fitted.length c.toNat
  · intro fitted s row hmem
    unfold CatHot.transform at hmem
    rw [catHot_tfl_eq] at hmem
    obtain ⟨c, hc, rfl⟩ := List.mem_map.mp hmem
    by_cases h : c = -1
    · simp only [h, if_pos]
      exact hzero fitted.length
    · simp only [h, if_neg, ite_false]
      exact hrow fitted.length c.toNat

/-- Witness for C7 at concrete valid inputs over categories `[1, 2]`. -/
theorem c7_row_sums_witness :
    ((∀ l ∈ ([0, 1] : List ℕ), l < 2)
      ∧ ∀ row ∈ OneHot.transform_from_labels 2 [0, 1], row.sum = 0 ∨ row.sum = 1)
    ∧ (([1, 2] : List ℕ) ≠ []
      ∧ ∀ row ∈ OneHot.transform [1, 2] [2, 7], row.sum = 0 ∨ row.sum = 1)
    ∧ ((∀ l : ℕ, some l ∈ ([some 0, none] : List (Option ℕ)) → l < 2)
      ∧ ∀ row ∈ NanHot.transform_from_labels ([1, 2] : List ℕ) [some 0, none],
          row.sum = 0 ∨ row.sum = 1)
    ∧ (∀ row ∈ NanHot.transform ([1, 2] : List ℕ) [some 2, none],
        row.sum = 0 ∨ row.sum = 1)
    ∧ ((∀ c ∈ ([-1, 1] : List ℤ), -1 ≤ c ∧ c < ((2 : ℕ) : ℤ))
      ∧ ∀ row ∈ CatHot.transform_from_labels ([1, 2] : List ℕ) [-1, 1],
          row.sum = 0 ∨ row.sum = 1)
    ∧ (∀ row ∈ CatHot.transform ([1, 2] : List ℕ) (CatSeries.mk [2, 1] [0, -1]),
        row.sum = 0 ∨ row.sum = 1) :=
  ⟨⟨by decide, (c7_row_sums (α := ℕ)).1 2 [0, 1] (by decide)⟩,
   ⟨by decide, (c7_row_sums (α := ℕ)).2.1 [1, 2] [2, 7] (by decide)⟩,
   ⟨by intro l hl; simp at hl; simp [hl],
    (c7_row_sums (α := ℕ)).2.2.1 [1, 2] [some 0, none]
      (by intro l hl; simp at hl; simp [hl])⟩,
   (c7_row_sums (α := ℕ)).2.2.2.1 [1, 2] [some 2, none],
   ⟨by decide, (c7_row_sums (α := ℕ)).2.2.2.2.1 [1, 2] [-1, 1] (by decide)⟩,
   (c7_row_sums (α := ℕ)).2.2.2.2.2 [1, 2] (CatSeries.mk [2, 1] [0, -1])⟩

end ClaimC7

section ClaimC9

/-- Claim C9: reading `categories` or `n_categories` before `fit` raises the
"not fitted" `ProgrammingError` (embedded as `Except.error`); after `fit`
(of any of the three variants) both accessors succeed. -/
theorem c9_not_fitted {α : Type} [LinearOrder α] [DecidableEq α] :
    ((OneHotEncoder.init : OneHotEncoder α).categories
        = Except.error "Encoder not fitted!")
    ∧ ((OneHotEncoder.init : OneHotEncoder α).n_categories
        = Except.error "Encoder not fitted!")
    ∧ (∀ (e : OneHotEncoder α) (samples : List α),
        (e.fit samples).categories = Except.ok (unique samples)
        ∧ (e.fit samples).n_categories = Except.ok (unique samples).length)
    ∧ (∀ (e : OneHotEncoder α) (samples : List (Option α)),
        (NanHotEncoder.fit e samples).categories
          = Except.ok (unique (samples.filterMap id))
        ∧ (NanHotEncoder.fit e samples).n_categories
          = Except.ok (unique (samples.filterMap id)).length)
    ∧ (∀ (e : OneHotEncoder α) (s : CatSeries α),
        (CatHotEncoder.fit e s).categories = Except.ok (unique s.cats)
        ∧ (CatHotEncoder.fit e s).n_categories
          = Except.ok (unique s.cats).length) := by
  refine ⟨rfl, rfl, ?_, ?_, ?_⟩
  · intro e samples
    exact ⟨rfl, rfl⟩
  · intro e samples
    exact ⟨rfl, rfl⟩
  · intro e s
    exact ⟨rfl, rfl⟩

end ClaimC9

section ClaimC10

/-- Claim C10: the base `inverse_to_labels` applied to a row with several
equal maximal entries returns the smallest index attaining the maximum
(`np.argmax` keeps the first hit), and `inverse` therefore maps such an
invalid row to the earliest of the tied categories — no error is raised. -/
theorem c10_argmax_ties {α : Type} [DecidableEq α] [Inhabited α]
    (cats : List α) (row : List ℕ) (i : ℕ) (hi : i < row.length)
    (hmax : ∀ j, j < row.length → row.getD j 0 ≤ row.getD i 0)
    (hfirst : ∀ j, j < i → row.getD j 0 < row.getD i 0) :
    argmaxFirst row = i
    ∧ (∀ (encoded : List (List ℕ)) (k : ℕ), encoded[k]? = some row →
        (OneHot.inverse_to_labels encoded)[k]? = some i
        ∧ (OneHot.inverse cats encoded)[k]? = some (cats.getD i default)) := by
  have hargmax : argmaxFirst row = i := by
    refine argmaxFirst_eq hi ?_ ?_
    · intro j hj
      have := hmax j hj
      rwa [List.getD_eq_getElem _ _ hj, List.getD_eq_getElem _ _ hi] at this
    · intro j hj
      have := hfirst j hj
      rwa [List.getD_eq_getElem _ _ (lt_trans hj hi), List.getD_eq_getElem _ _ hi]
        at this
  refine ⟨hargmax, ?_⟩
  intro encoded k hk
  constructor
  · unfold OneHot.inverse_to_labels
    simp [List.getElem?_map, hk, hargmax]
  · unfold OneHot.inverse OneHot.inverse_from_labels OneHot.inverse_to_labels
    simp [List.getElem?_map, hk, hargmax]

/-- Witness for C10: the invalid doubly-hot row `[0, 1, 1]` inverts to label
`1` (the smallest of the tied indices) and to the second of three
categories. -/
theorem c10_argmax_ties_witness :
    ((1 : ℕ) < ([0, 1, 1] : List ℕ).length
      ∧ (∀ j, j < ([0, 1, 1] : List ℕ).length →
          ([0, 1, 1] : List ℕ).getD j 0 ≤ ([0, 1, 1] : List ℕ).getD 1 0)
      ∧ (∀ j, j < 1 → ([0, 1, 1] : List ℕ).getD j 0 < ([0, 1, 1] : List ℕ).getD 1 0))
    ∧ argmaxFirst [0, 1, 1] = 1
    ∧ (OneHot.inverse_to_labels [[0, 1, 1]])[0]? = some 1
    ∧ (OneHot.inverse ([5, 6, 7] : List ℕ) [[0, 1, 1]])[0]? = some 6 := by
  have h := c10_argmax_ties ([5, 6, 7] : List ℕ) [0, 1, 1] 1 (by decide)
    (by decide) (by decide)
  have h2 := h.2 [[0, 1, 1]] 0 (by decide)
  exact ⟨⟨by decide, by decide, by decide⟩, h.1, h2.1, by
    have := h2.2
    simpa using this⟩

end ClaimC10

section ClaimC8

/-- Claim C8: `topographic_error` returns the fraction of samples whose best
and second-best matching units are separated by a grid-index Euclidean
distance exceeding `neighbor_radius` (first conjunct, with `farBMU` the
per-sample test and `countP` the count of failing samples); the result lies
in `[0, 1]`, equals `0` when every sample's two BMUs are adjacent and `1`
when none are; and the first BMU really attains the minimal squared
feature-space distance over all grid cells (last conjunct). -/
theorem c8_topographic_error (ms : List ℕ) (w : List ℕ → List ℚ)
    (x : List (List ℚ)) (r : ℚ) (hx : x ≠ []) :
    topographic_error ms w x r = (x.countP (farBMU ms w r) : ℚ) / (x.length : ℚ)
    ∧ 0 ≤ topographic_error ms w x r
    ∧ topographic_error ms w x r ≤ 1
    ∧ ((∀ s ∈ x, farBMU ms w r s = false) → topographic_error ms w x r = 0)
    ∧ ((∀ s ∈ x, farBMU ms w r s = true) → topographic_error ms w x r = 1)
    ∧ (∀ s ∈ x, ∀ i, i < (bmuDists ms w s).length →
        (bmuDists ms w s).getD (bmu1 ms w s) 0 ≤ (bmuDists ms w s).getD i 0) := by
  have hlen : (0 : ℚ) < (x.length : ℚ) := by
    have : 0 < x.length := List.length_pos.mpr hx
    exact_mod_cast this
  have heq : topographic_error ms w x r
      = (x.countP (farBMU ms w r) : ℚ) / (x.length : ℚ) := by
    unfold topographic_error
    rw [sum_indicator]
  refine ⟨heq, ?_, ?_, ?_, ?_, ?_⟩
  · rw [heq]
    positivity
  · rw [heq, div_le_one hlen]
    exact_mod_cast List.countP_le_length _
  · intro hall
    rw [heq]
    have hcnt : x.countP (farBMU ms w r) = 0 := by
      rw [List.countP_eq_zero]
      intro a ha
      simp [hall a ha]
    rw [hcnt]
    simp
  · intro hall
    rw [heq]
    have hcnt : x.countP (farBMU ms w r) = x.length := by
      rw [List.countP_eq_length]
      intro a ha
      exact hall a ha
    rw [hcnt]
    exact div_self (ne_of_gt hlen)
  · intro s hs i hi
    have hne : bmuDists ms w s ≠ [] := by
      intro h
      rw [h] at hi
      simp at hi
    have hmem := listMin_mem hne
    have h1 : (bmuDists ms w s).getD (bmu1 ms w s) 0 = listMin (bmuDists ms w s) := by
      unfold bmu1 argminFirst
      exact firstIndex_getD_any hmem 0
    rw [h1]
    refine listMin_le _ ?_
    rw [List.getD_eq_getElem _ _ hi]
    exact (bmuDists ms w s).getElem_mem hi

/-- Witness for C8 on a two-cell 1-D map with weights `[0]` and `[1]` and the
single sample `[0]`. -/
theorem c8_topographic_error_witness :
    ([[(0 : ℚ)]] : List (List ℚ)) ≠ []
    ∧ 0 ≤ topographic_error [2] (fun c => [(c.getD 0 0 : ℚ)]) [[0]] 1
    ∧ topographic_error [2] (fun c => [(c.getD 0 0 : ℚ)]) [[0]] 1 ≤ 1 :=
  ⟨by decide,
   (c8_topographic_error [2] (fun c => [(c.getD 0 0 : ℚ)]) [[0]] 1 (by decide)).2.1,
   (c8_topographic_error [2] (fun c => [(c.getD 0 0 : ℚ)]) [[0]] 1 (by decide)).2.2.1⟩

end ClaimC8

section ClaimC3

/-- Claim C3 (code bug): on the 1-D three-cell map `somW3` with weights
`0, 1, 3` and radius `1`, the claimed u-matrix entry at cell `1` is the mean
of the per-neighbor distances, `(1 + 2) / 2 = 3/2` (second conjunct, computed
with the spec-worded `umatrixMean`), but the code stores
`np.linalg.norm(weights[locs] - weights[i])` — the norm of the *flattened*
neighbor difference stack, `√(1² + 2²) = √5` (first conjunct); the two
disagree (third conjunct).  Moreover on the single-cell map `somW1`, where no
coordinate qualifies as a neighbor, the code stores the definite value `0`
(norm of an empty array) rather than the NaN the claim requires (fourth
conjunct).  The dead `np.mean(dist)` applied to a scalar shows the mean was
the intent. -/
theorem c3_umatrix_not_mean :
    (umatrix somW3 1).data [1] = Real.sqrt 5
    ∧ (umatrixMean somW3 1).data [1] = 3 / 2
    ∧ (umatrix somW3 1).data [1] ≠ (umatrixMean somW3 1).data [1]
    ∧ (umatrix somW1 1).data [0] = 0 := by
  have hfil : ([[0], [1], [2]] : List (List ℕ)).filter (isNeighbor 1 [1])
      = [[0], [2]] := by decide
  have hfil0 : ([[0]] : List (List ℕ)).filter (isNeighbor 1 [0]) = [] := by decide
  have hs4 : Real.sqrt 4 = 2 := by
    rw [show (4 : ℝ) = 2 ^ 2 by norm_num, Real.sqrt_sq (by norm_num : (0 : ℝ) ≤ 2)]
  have h1 : (umatrix somW3 1).data [1] = Real.sqrt 5 := by
    show Real.sqrt _ = Real.sqrt 5
    norm_num [somW3, hfil, gridIndices, List.dropLast, List.drop, List.range,
      List.range.loop, List.headD]
  have h2 : (umatrixMean somW3 1).data [1] = 3 / 2 := by
    show _ / _ = (3 : ℝ) / 2
    norm_num [somW3, hfil, hs4, gridIndices, List.dropLast, List.drop, List.range,
      List.range.loop, List.headD]
  refine ⟨h1, h2, ?_, ?_⟩
  · rw [h1, h2]
    intro hcontra
    have h5 : Real.sqrt 5 ^ 2 = 5 := Real.sq_sqrt (by norm_num)
    rw [hcontra] at h5
    norm_num at h5
  · show Real.sqrt _ = 0
    norm_num [somW1, hfil0, gridIndices, List.dropLast, List.drop]

end ClaimC3

section ClaimC4

/-- Counterexample for C4: feed `umatrix` a weight array of the shape the
claim prescribes, `map_shape + (n_features,) = (2, 2) + (3,)`.  The source
computes `map_shape = weights.shape[:-2]`, so the output shape is `(2,)`,
not the claimed `map_shape = (2, 2)`. -/
theorem c4_shape_counterexample : (umatrix somW223 1).shape ≠ [2, 2] := by
  decide

/-- Claim C4 as amended: the u-matrix output shape equals the weights shape
with its *last two* axes removed; in particular, for the SOM collaborator's
actual weight layout `map_shape + (1, n_features)` (the trailing broadcast
axis is required by `topographic_error`'s `weights - x`), the output shape is
exactly `map_shape`, for any grid dimensionality. -/
theorem c4_shape_amended (ms : List ℕ) (f : ℕ) (w : NDArray) (d : ℚ)
    (hw : w.shape = ms ++ [1, f]) :
    (umatrix w d).shape = ms ∧ (umatrix w d).shape = w.shape.dropLast.dropLast := by
  have hdrop : (umatrix w d).shape = w.shape.dropLast.dropLast := rfl
  refine ⟨?_, hdrop⟩
  rw [hdrop, hw]
  rw [show ms ++ [1, f] = (ms ++ [1]) ++ [f] by simp]
  rw [List.dropLast_concat, List.dropLast_concat]

/-- Witness for C4 (amended) on a 2-D grid with weights of layout
`(2, 2) + (1, 3)`. -/
theorem c4_shape_amended_witness :
    somW2213.shape = [2, 2] ++ [1, 3]
    ∧ (umatrix somW2213 1).shape = [2, 2] :=
  ⟨rfl, (c4_shape_amended [2, 2] 3 somW2213 1 rfl).1⟩

end ClaimC4
